import Mathlib

/-!
Shallow embedding of the goexpress HTTP routing library and proofs about it.

The embedding covers, from `router.go`: the middleware chain builder `wrap`,
route registration (`handle`), global middleware registration (`Use`), route
groups (`Group`), the custom not-found handler (`NotFound`), path
normalization (`normalizePath`, which calls the standard library `path.Clean`
on a rooted input), and the diagnostic helpers `middlewareNames`,
`trimRepoName` and `route.String`.  From `middleware.go` it covers the
status-capturing response wrapper `statusWriter`, the request logger
`LogRequest` and the panic-recovery middleware `RecoverFromPanic`.

The multiplexer (`http.ServeMux`) and the response writer are external
collaborators; they are modelled by the contract the library relies on: the
multiplexer maps registered `"METHOD path"` patterns to handlers with the
`"/"` pattern as catch-all fallback, and the response writer commits the
first status written, ignores superfluous status writes, and commits 200 on
a body write that precedes any explicit status.
-/

namespace GoExpress

/-! ## path.Clean and normalizePath (router.go lines 596-607)

`path.Clean` is embedded from the Go standard library algorithm: a cursor
walks the input, copying path elements into an output buffer, skipping
duplicate slashes and `.` elements and backtracking over the previous
element for `..`.  The loop is bounded by a fuel argument; every iteration
consumes at least one input character, so passing the input length as fuel
makes the bound unreachable. -/

/-- The backtracking cursor move of `path.Clean` for a `..` element:
after `out.w--`, keep decrementing `w` while `out.w > dotdot` and the
character just cut was not a slash.  Returns the final write cursor. -/
def backtrackW (out : List Char) (dotdot : Nat) : Nat → Nat
  | 0 => 0
  | w + 1 =>
    if dotdot < w + 1 ∧ out.getD (w + 1) ' ' ≠ '/' then backtrackW out dotdot w
    else w + 1

/-- Truncate the output buffer of `path.Clean` over the previous path
element (the `case out.w > dotdot` branch for a `..` element). -/
def backtrack (out : List Char) (dotdot : Nat) : List Char :=
  out.take (backtrackW out dotdot (out.length - 1))

/-- The main loop of Go `path.Clean`: `rooted` says whether the input began
with a slash, `dotdot` is the low-water mark the `..` backtracking may not
cross, `out` is the output buffer and the last argument the remaining
input.  The first argument is the fuel bounding the loop. -/
def cleanCore (rooted : Bool) : Nat → Nat → List Char → List Char → List Char
  | _, _, out, [] => out
  | 0, _, out, _ :: _ => out
  | fuel + 1, dotdot, out, c :: rest =>
    if c = '/' then
      -- empty path element
      cleanCore rooted fuel dotdot out rest
    else if c = '.' ∧ (rest = [] ∨ rest.head? = some '/') then
      -- . element
      cleanCore rooted fuel dotdot out rest
    else if c = '.' ∧ rest.head? = some '.' ∧ (rest.tail = [] ∨ rest.tail.head? = some '/') then
      -- .. element: remove to last /
      if dotdot < out.length then
        cleanCore rooted fuel dotdot (backtrack out dotdot) rest.tail
      else if rooted = false then
        let out2 := (if 0 < out.length then out ++ ['/'] else out) ++ ['.', '.']
        cleanCore rooted fuel out2.length out2 rest.tail
      else
        cleanCore rooted fuel dotdot out rest.tail
    else
      -- real path element: add slash if needed, then copy the element
      let out2 :=
        if (rooted = true ∧ out.length ≠ 1) ∨ (rooted = false ∧ out.length ≠ 0) then
          out ++ ['/']
        else out
      cleanCore rooted fuel dotdot (out2 ++ (c :: rest).takeWhile (fun ch => ch != '/'))
        ((c :: rest).dropWhile (fun ch => ch != '/'))

/-- Go `path.Clean`: returns the shortest lexically equivalent path. -/
def pathClean (p : String) : String :=
  match p.data with
  | [] => "."
  | c :: cs =>
    let rooted := c == '/'
    let out0 : List Char := if rooted then ['/'] else []
    let dotdot : Nat := if rooted then 1 else 0
    let input := if rooted then cs else c :: cs
    let res := cleanCore rooted input.length dotdot out0 input
    if res.length = 0 then "." else String.mk res

/-- `normalizePath` from router.go: the empty path becomes `/`, any other
path is rooted and cleaned. -/
def normalizePath (p : String) : String :=
  if p = "" then "/"
  else
    let q := pathClean ("/" ++ p)
    if q = "." then "/" else q

/-! ## The router model (router.go lines 362-547)

Handlers act on a per-request world holding the observable side effects a
request produces: an event trace (for middleware ordering) and the response
status and body.  A middleware is, as in the source, a function from the
next handler to a wrapping handler.  The shared `http.ServeMux` is the
association of registered `"METHOD path"` patterns to composed handlers;
since it is the one structure shared between a router and its groups, it is
threaded explicitly through the registration operations. -/

/-- An incoming HTTP request: method and URL path. -/
structure Request where
  method : String
  path : String

/-- The observable per-request effects: an ordered event trace plus the
response the handlers produced. -/
structure World where
  events : List String
  status : Option Nat
  body : String

/-- `http.Handler`: consumes a request and transforms the request world. -/
abbrev Handler := Request → World → World

/-- `Middleware func(http.Handler) http.Handler` (router.go line 389). -/
abbrev Middleware := Handler → Handler

/-- `Router.wrap` (router.go lines 541-547): applies the middlewares to the
handler in reverse index order, so the first middleware in the list becomes
the outermost wrapper. -/
def wrap (handler : Handler) (middlewares : List Middleware) : Handler :=
  middlewares.reverse.foldl (fun finalHandler mw => mw finalHandler) handler

/-- The shared multiplexer: registered pattern/handler pairs. -/
abbrev Mux := List (String × Handler)

/-- The multiplexer's built-in not-found response (`http.NotFound`). -/
def defaultNotFound : Handler := fun _ w =>
  { w with events := w.events ++ ["http.NotFound"],
           status := some 404, body := w.body ++ "404 page not found\n" }

/-- Dispatch contract of the `http.ServeMux` collaborator: an exact
`"METHOD path"` pattern wins, otherwise the `"/"` pattern is the registered
catch-all, otherwise the built-in not-found handler answers. -/
def muxLookup (mux : Mux) (method p : String) : Handler :=
  match mux.lookup (method ++ " " ++ p) with
  | some h => h
  | none =>
    match mux.lookup "/" with
    | some h => h
    | none => defaultNotFound

/-- `Router.ServeHTTP` (router.go lines 460-462): delegates to the mux. -/
def serveHTTP (mux : Mux) (req : Request) (w : World) : World :=
  muxLookup mux req.method req.path req w

/-- A registered route record (router.go lines 551-555). -/
structure Route where
  method : String
  path : String
  handler : Handler
  middlewares : List Middleware

/-- The router fields (router.go lines 394-399); `basePath` embeds the Go
field `prefix` holding the accumulated group path.  The shared mux is
threaded separately through the operations that touch it. -/
structure Router where
  basePath : String
  routes : List Route
  middlewares : List Middleware

/-- `New` (router.go lines 402-406). -/
def Router.new : Router :=
  { basePath := "", routes := [], middlewares := [] }

/-- `Router.Use` (router.go lines 410-412): appends to the global
middleware chain. -/
def Router.use (r : Router) (mw : Middleware) : Router :=
  { r with middlewares := r.middlewares ++ [mw] }

/-- `Router.handle` (router.go lines 522-537): normalizes the full path,
wraps the handler with the route middlewares and then the global
middlewares, registers the composed handler with the shared mux and appends
a route record. -/
def Router.handle (mux : Mux) (r : Router) (method p : String) (handler : Handler)
    (mws : List Middleware) : Mux × Router :=
  let fullPath := normalizePath (r.basePath ++ p)
  let pattern := method ++ " " ++ fullPath
  let routeHandler := wrap handler mws
  let finalHandler := wrap routeHandler r.middlewares
  (mux ++ [(pattern, finalHandler)],
   { r with routes := r.routes ++ [⟨method, fullPath, handler, mws⟩] })

/-- The sub-router a `Group` call creates (router.go lines 470-474): it
shares the parent's mux, extends the parent's path, and its middleware
list is a fresh copy of the parent's list with the group middlewares
appended (`append(append([]Middleware\x7b\x7d, r.middlewares...),
middlewares...)`), so it is a value snapshot, not a reference. -/
def Router.subRouter (r : Router) (pre : String) (mws : List Middleware) : Router :=
  { basePath := r.basePath ++ pre,
    routes := [],
    middlewares := r.middlewares ++ mws }

/-- `Router.Group` (router.go lines 469-479): builds the sub-router, runs
the caller's registration function on it against the shared mux, then
merges the sub-router's route records into the parent's table. -/
def Router.group (mux : Mux) (r : Router) (pre : String)
    (fn : Mux → Router → Mux × Router) (mws : List Middleware) : Mux × Router :=
  let sub := r.subRouter pre mws
  let (mux2, sub2) := fn mux sub
  (mux2, { r with routes := r.routes ++ sub2.routes })

/-- `Router.NotFound` (router.go lines 498-501): wraps the custom handler
with the router's global middlewares and registers it at the catch-all
pattern `"/"`. -/
def Router.notFound (mux : Mux) (r : Router) (handler : Handler) : Mux :=
  mux ++ [("/", wrap handler r.middlewares)]

/-! Instrumentation used to observe execution order: a terminal handler
that records one event (and optionally a response), and a middleware that
records an event before and after calling onward. -/

/-- A terminal handler that records the event `e`. -/
def logEvent (e : String) : Handler := fun _ w =>
  { w with events := w.events ++ [e] }

/-- A terminal handler that records event `e` and writes status `code` and
body `b`. -/
def respondH (e : String) (code : Nat) (b : String) : Handler := fun _ w =>
  { w with events := w.events ++ [e], status := some code, body := w.body ++ b }

/-- A middleware that records `name:pre` before and `name:post` after
invoking the next handler. -/
def traceMw (name : String) : Middleware := fun next => fun req w =>
  let w1 := { w with events := w.events ++ [name ++ ":pre"] }
  let w2 := next req w1
  { w2 with events := w2.events ++ [name ++ ":post"] }

/-- Modelled from the spec: the chain contract of section 4.1, "invoking
`C` is equivalent to invoking `m1` with next-handler equal to (`m2` with
next-handler equal to (... equal to (`mn` with next-handler `H`)))" — the
literal nested application with `m1` outermost, written as structural
recursion on the middleware list.  Used only to compare `wrap` against the
spec's words. -/
def chainSpec (handler : Handler) : List Middleware → Handler
  | [] => handler
  | m :: ms => m (chainSpec handler ms)

/-! ## The status-capturing wrapper and the request logger
(middleware.go lines 12-42)

The underlying `http.ResponseWriter` is an external collaborator; its
contract is the standard one: the first `WriteHeader` commits the status,
any later `WriteHeader` is ignored as superfluous, and a `Write` with no
committed status first commits 200.  A handler interacts with the writer it
is handed only through `WriteHeader` and `Write` calls, so for these claims
a terminal handler is embedded as the sequence of writer calls it makes. -/

/-- State of the underlying response writer: the committed status (what the
client actually receives) and the body bytes forwarded so far. -/
structure RW where
  committed : Option Nat
  body : String
deriving DecidableEq

/-- Underlying writer `WriteHeader`: first call commits, later calls are
superfluous and ignored. -/
def RW.writeHeader (w : RW) (code : Nat) : RW :=
  match w.committed with
  | some _ => w
  | none => { w with committed := some code }

/-- Underlying writer `Write`: commits 200 first if nothing is committed,
then forwards the bytes. -/
def RW.write (w : RW) (s : String) : RW :=
  match w.committed with
  | some _ => { w with body := w.body ++ s }
  | none => { committed := some 200, body := w.body ++ s }

/-- `statusWriter` (middleware.go lines 15-19): wraps the response writer,
tracking a status code and whether the header was sent. -/
structure StatusWriter where
  rw : RW
  status : Nat
  headerSent : Bool
deriving DecidableEq

/-- `statusWriter.WriteHeader` (middleware.go lines 23-29): if the header
was not sent yet, record the code, mark the header sent and forward the
call; otherwise do nothing. -/
def StatusWriter.writeHeader (w : StatusWriter) (code : Nat) : StatusWriter :=
  if !w.headerSent then
    { rw := w.rw.writeHeader code, status := code, headerSent := true }
  else w

/-- `statusWriter` declares no `Write` method, so Go promotes the embedded
writer's `Write`: the call goes straight to the underlying writer and the
wrapper's own fields are untouched. -/
def StatusWriter.write (w : StatusWriter) (s : String) : StatusWriter :=
  { w with rw := w.rw.write s }

/-- A call a handler makes on the response writer handed to it. -/
inductive WriterAction where
  | setStatus (code : Nat)
  | writeBody (s : String)
deriving DecidableEq

/-- Whether the action is a `WriteHeader` call. -/
def WriterAction.isSetStatus : WriterAction → Bool
  | .setStatus _ => true
  | .writeBody _ => false

/-- Whether the action is a `Write` call. -/
def WriterAction.isWriteBody : WriterAction → Bool
  | .setStatus _ => false
  | .writeBody _ => true

/-- Run a handler's sequence of writer calls against a `statusWriter`. -/
def StatusWriter.run (w : StatusWriter) : List WriterAction → StatusWriter
  | [] => w
  | .setStatus c :: rest => (w.writeHeader c).run rest
  | .writeBody s :: rest => (w.write s).run rest

/-- `LogRequest` (middleware.go lines 33-42) restricted to its
status-observation behavior: it wraps the incoming writer in a
`statusWriter` preset to status 200, lets the handler run against the
wrapper, and afterwards reads `sw.status` as the `status_code` it logs.
Returns the resulting underlying writer and the logged status. -/
def logRequest (handlerCalls : List WriterAction) (w : RW) : RW × Nat :=
  let sw : StatusWriter := { rw := w, status := 200, headerSent := false }
  let sw2 := sw.run handlerCalls
  (sw2.rw, sw2.status)

/-! ## Panic recovery (middleware.go lines 62-76) -/

/-- Outcome of running a terminal handler that may panic: either a normal
return or a panic escaping with a fault value, in both cases with the
writer state at that point. -/
inductive HOutcome where
  | ok (w : RW)
  | panicked (w : RW) (value : String)
deriving DecidableEq

/-- A terminal handler for the panic-recovery claims: it may panic. -/
abbrev PHandler := Request → RW → HOutcome

/-- One structured log record `slog.Error(msg, k1, v1, k2, v2)`. -/
structure LogEntry where
  message : String
  key1 : String
  val1 : String
  key2 : String
  val2 : String
deriving DecidableEq

/-- Model of `fmt.Sprint(r)` applied to the `*http.Request` of the guarded
closure: the standard rendering of a struct pointer, a function of the
request alone. -/
def fmtSprintRequest (req : Request) : String :=
  "&\x7b" ++ req.method ++ " " ++ req.path ++ "\x7d"

/-- Model of `string(debug.Stack())`: the goroutine stack rendering. -/
def debugStack : String := "goroutine 1 [running]: ..."

/-- `http.StatusText` for the one code this code base passes to it. -/
def statusText (code : Nat) : String :=
  if code = 500 then "Internal Server Error" else ""

/-- `http.Error(w, error, code)`: writes the status code, then the error
text followed by a newline. -/
def httpError (w : RW) (error : String) (code : Nat) : RW :=
  (w.writeHeader code).write (error ++ "\n")

/-- `RecoverFromPanic` (middleware.go lines 62-76): runs the next handler
inside a guarded scope.  On a normal return it returns the writer as is; on
a panic it emits `slog.Error("panic occurred", "panic", fmt.Sprint(r),
"stack_trace", string(debug.Stack()))` — note the source passes the
request `r`, not the recovered value — and answers with
`http.Error(w, http.StatusText(500), 500)`.  The wrapped handler always
returns normally, with the log records the middleware emitted. -/
def RecoverFromPanic (next : PHandler) : Request → RW → RW × List LogEntry :=
  fun req w =>
    match next req w with
    | .ok w2 => (w2, [])
    | .panicked w2 _ =>
      (httpError w2 (statusText 500) 500,
       [⟨"panic occurred", "panic", fmtSprintRequest req, "stack_trace", debugStack⟩])

/-! ## Diagnostic route listing (router.go lines 557-594)

`route.String` and the name helpers use reflection
(`runtime.FuncForPC(reflect.ValueOf(f).Pointer()).Name()`) to obtain the
full function name of a handler or middleware; the embedding takes those
full names as the given strings the runtime would return. -/

/-- `trimRepoName` (router.go lines 575-584): drops the first two
slash-separated components of a full function name when there are more
than two, rejoins and trims whitespace. -/
def trimRepoName (fn : String) : String :=
  let parts := fn.splitOn "/"
  let r := if parts.length > 2 then parts.drop 2 else parts
  (String.intercalate "/" r).trim

/-- `middlewareNames` (router.go lines 586-594): allocates a slice of
`len(mws)` empty strings with `make`, then appends each middleware's
trimmed name to it — so the result keeps the pre-allocated empty entries
in front. -/
def middlewareNames (mws : List String) : List String :=
  let names := List.replicate mws.length ""
  mws.foldl (fun names mw => names ++ [trimRepoName mw]) names

/-- Go `fmt` rendering of a string slice under the `%s` verb:
the elements joined by single spaces inside brackets. -/
def goFmtStrSlice (xs : List String) : String :=
  "[" ++ String.intercalate " " xs ++ "]"

/-- `route.String` (router.go lines 558-560) on the diagnostic data of a
route: method, path, trimmed handler name and the middleware name slice. -/
def routeString (method p handlerFullName : String) (mwFullNames : List String) : String :=
  method ++ " " ++ p ++ " " ++ trimRepoName handlerFullName ++ " "
    ++ goFmtStrSlice (middlewareNames mwFullNames)

/-! ## Normalization predicates (for the path invariants of the spec) -/

/-- No two consecutive slashes anywhere in the character list. -/
def NoDouble (l : List Char) : Prop :=
  List.Chain' (fun a b => ¬(a = '/' ∧ b = '/')) l

/-- The path invariant the spec states for registered full paths: absolute
(begins with a slash), repeated slashes collapsed (none left), and no
trailing slash unless the whole path is the root. -/
def NormalizedAbs (s : String) : Prop :=
  s.data.head? = some '/' ∧ NoDouble s.data ∧ (s ≠ "/" → s.data.getLast? ≠ some '/')

/-- Invariant of the `path.Clean` output buffer in the rooted case: starts
with the root slash, never contains a double slash, and ends in a slash
only when it is exactly the root. -/
def GoodBuf (out : List Char) : Prop :=
  out.head? = some '/' ∧ NoDouble out ∧ (out = ['/'] ∨ out.getLast? ≠ some '/')

/-! ## Helper lemmas -/

/-- Unfolding `wrap` over a head middleware: the first middleware of the
list is applied outermost. -/
theorem wrap_cons (h : Handler) (m : Middleware) (ms : List Middleware) :
    wrap h (m :: ms) = m (wrap h ms) := by
  simp [wrap, List.foldl_append]

/-- `wrap` of the empty middleware list is the handler unchanged. -/
theorem wrap_nil (h : Handler) : wrap h [] = h := rfl

/-- Appending different strings to a common front keeps them different. -/
theorem append_ne_of_ne (a : String) {b c : String} (h : b ≠ c) : a ++ b ≠ a ++ c := by
  intro he
  apply h
  apply String.ext
  have hd := congrArg String.data he
  simp only [String.data_append] at hd
  exact List.append_cancel_left hd

/-! ## C3: the chain builder -/

/-- C3: for every handler H and middleware list, `wrap` builds exactly the
nested application with the first middleware outermost and the last
innermost, and `wrap` of the empty list returns the handler unchanged. -/
theorem c3_wrap_is_nested_application (h : Handler) (mws : List Middleware) :
    wrap h mws = chainSpec h mws ∧ wrap h [] = h := by
  refine ⟨?_, rfl⟩
  induction mws with
  | nil => rfl
  | cons m ms ih => rw [wrap_cons, ih]; rfl

/-! ## C1: middleware execution order -/

/-- C1: with global middleware `[g1, g2]` and route middleware `[r1, r2]`
registered together on one route, a request dispatched to that route runs
the pre-actions in order `g1, g2, r1, r2`, then the terminal handler, then
the post-next actions in reverse order `r2, r1, g2, g1`. -/
theorem c1_middleware_order (g1 g2 r1 r2 hn : String) :
    (serveHTTP
      (Router.handle [] ((Router.new.use (traceMw g1)).use (traceMw g2)) "GET" "/x"
        (logEvent hn) [traceMw r1, traceMw r2]).1
      ⟨"GET", "/x"⟩ ⟨[], none, ""⟩).events =
    [g1 ++ ":pre", g2 ++ ":pre", r1 ++ ":pre", r2 ++ ":pre", hn,
     r2 ++ ":post", r1 ++ ":post", g2 ++ ":post", g1 ++ ":post"] := by
  have hnorm : normalizePath "/x" = "/x" := by decide
  simp [serveHTTP, muxLookup, Router.handle, Router.new, Router.use, hnorm, wrap,
        traceMw, logEvent, List.lookup]

/-! ## C2: group middleware is a snapshot -/

/-- C2: after `Use(m1); Group("/g", fn, m2); Use(m3)` on the parent, the
group's router holds exactly the snapshot `[m1, m2]`; the later `Use(m3)`
lands only in the parent's own list; a route registered inside the group
during `fn`, and likewise a route registered on the group router after the
parent's `Use(m3)`, both get the composed handler built from `[m1, m2]`. -/
theorem c2_group_snapshot (m1 m2 m3 : Middleware) (H : Handler) :
    (((Router.new.use m1).subRouter "/g" [m2]).middlewares = [m1, m2])
    ∧ (((Router.group [] (Router.new.use m1) "/g"
          (fun mux sub => Router.handle mux sub "GET" "/a" H []) [m2]).2.use m3).middlewares
        = [m1, m3])
    ∧ ((Router.group [] (Router.new.use m1) "/g"
          (fun mux sub => Router.handle mux sub "GET" "/a" H []) [m2]).1.lookup
          ("GET" ++ " " ++ "/g/a") = some (wrap (wrap H []) [m1, m2]))
    ∧ ((Router.handle [] ((Router.new.use m1).subRouter "/g" [m2]) "GET" "/b" H []).1.lookup
        ("GET" ++ " " ++ "/g/b") = some (wrap (wrap H []) [m1, m2])) := by
  have h1 : normalizePath "/g/a" = "/g/a" := by decide
  have h2 : normalizePath "/g/b" = "/g/b" := by decide
  refine ⟨rfl, by simp [Router.group, Router.subRouter, Router.new, Router.use, Router.handle],
      ?_, ?_⟩ <;>
    simp [Router.group, Router.subRouter, Router.new, Router.use, Router.handle, h1, h2,
      wrap, List.lookup]

/-! ## C7: Use after registration does not rewrap -/

/-- C7: a route registered before a later `Use(m3)` on the same router
keeps the composed handler built from the middlewares present at
registration time; the later `Use` only extends the router's list, and
a dispatch of the route still runs only the original chain. -/
theorem c7_no_retroactive_rewrap (g hn : String) (m3 : Middleware) :
    ((Router.handle [] (Router.new.use (traceMw g)) "GET" "/x" (logEvent hn) []).1.lookup
        ("GET" ++ " " ++ "/x") = some (wrap (wrap (logEvent hn) []) [traceMw g]))
    ∧ (((Router.handle [] (Router.new.use (traceMw g)) "GET" "/x"
          (logEvent hn) []).2.use m3).middlewares = [traceMw g, m3])
    ∧ ((serveHTTP (Router.handle [] (Router.new.use (traceMw g)) "GET" "/x" (logEvent hn) []).1
        ⟨"GET", "/x"⟩ ⟨[], none, ""⟩).events = [g ++ ":pre", hn, g ++ ":post"]) := by
  have h1 : normalizePath "/x" = "/x" := by decide
  refine ⟨?_, by simp [Router.new, Router.use, Router.handle], ?_⟩ <;>
    simp [serveHTTP, muxLookup, Router.handle, Router.new, Router.use, h1, wrap,
      traceMw, logEvent, List.lookup]

/-! ## C9: the custom not-found handler -/

/-- C9: `NotFound(handler)` registers the handler wrapped by the router's
global middlewares at the catch-all pattern, and a request to any
unregistered path runs that wrapped handler, returning the custom
handler's status and body verbatim. -/
theorem c9_notfound_wrapped (g c b q : String) (code : Nat) (hq : q ≠ "/x") :
    ((Router.notFound
        (Router.handle [] (Router.new.use (traceMw g)) "GET" "/x" (logEvent "h") []).1
        (Router.handle [] (Router.new.use (traceMw g)) "GET" "/x" (logEvent "h") []).2
        (respondH c code b)).lookup "/"
      = some (wrap (respondH c code b) [traceMw g]))
    ∧ (serveHTTP
        (Router.notFound
          (Router.handle [] (Router.new.use (traceMw g)) "GET" "/x" (logEvent "h") []).1
          (Router.handle [] (Router.new.use (traceMw g)) "GET" "/x" (logEvent "h") []).2
          (respondH c code b))
        ⟨"GET", q⟩ ⟨[], none, ""⟩ = ⟨[g ++ ":pre", c, g ++ ":post"], some code, b⟩) := by
  have h1 : normalizePath "/x" = "/x" := by decide
  have hne : "GET " ++ q ≠ "GET /x" := by simpa using append_ne_of_ne "GET " hq
  have hne2 : "GET " ++ q ≠ "/" := by
    intro h
    have hlen := congrArg String.length h
    rw [String.length_append] at hlen
    have h4 : (4 : Nat) + q.length = 1 := hlen
    omega
  have hb1 : ("GET " ++ q == "GET /x") = false := beq_eq_false_iff_ne.mpr hne
  have hb2 : ("GET " ++ q == "/") = false := beq_eq_false_iff_ne.mpr hne2
  constructor <;>
    simp [serveHTTP, muxLookup, Router.notFound, Router.handle, Router.new, Router.use, h1,
      wrap, traceMw, logEvent, respondH, List.lookup, hb1, hb2]

/-- Witness for C9 at a concrete unregistered path. -/
theorem c9_notfound_wrapped_witness :
    ((Router.notFound
        (Router.handle [] (Router.new.use (traceMw "g1")) "GET" "/x" (logEvent "h") []).1
        (Router.handle [] (Router.new.use (traceMw "g1")) "GET" "/x" (logEvent "h") []).2
        (respondH "custom" 404 "Custom 404")).lookup "/"
      = some (wrap (respondH "custom" 404 "Custom 404") [traceMw "g1"]))
    ∧ (serveHTTP
        (Router.notFound
          (Router.handle [] (Router.new.use (traceMw "g1")) "GET" "/x" (logEvent "h") []).1
          (Router.handle [] (Router.new.use (traceMw "g1")) "GET" "/x" (logEvent "h") []).2
          (respondH "custom" 404 "Custom 404"))
        ⟨"GET", "/nope"⟩ ⟨[], none, ""⟩
      = ⟨["g1" ++ ":pre", "custom", "g1" ++ ":post"], some 404, "Custom 404"⟩) :=
  c9_notfound_wrapped "g1" "custom" "Custom 404" "/nope" 404 (by decide)

/-! ## C4: first-write-wins status capture -/

/-- Once the header is marked sent, further `WriteHeader` calls on the
wrapper change nothing. -/
theorem run_setStatus_of_headerSent (sw : StatusWriter) (h : sw.headerSent = true)
    (cs : List Nat) : sw.run (cs.map WriterAction.setStatus) = sw := by
  induction cs generalizing sw with
  | nil => rfl
  | cons c cs ih =>
    have hw : sw.writeHeader c = sw := by simp [StatusWriter.writeHeader, h]
    calc sw.run ((c :: cs).map WriterAction.setStatus)
        = (sw.writeHeader c).run (cs.map WriterAction.setStatus) := rfl
      _ = sw := by rw [hw]; exact ih sw h

/-- C4: on a fresh wrapper the first `WriteHeader(c)` records `c` and
forwards it to the underlying writer, every subsequent `WriteHeader` call
leaves the recorded status unchanged, and a handler calling
`WriteHeader(201)` then `WriteHeader(404)` makes the logger observe 201. -/
theorem c4_first_write_wins (sw : StatusWriter) (h : sw.headerSent = false)
    (c : Nat) (cs : List Nat) :
    ((sw.writeHeader c).run (cs.map WriterAction.setStatus)).status = c
    ∧ (sw.writeHeader c).status = c
    ∧ (sw.writeHeader c).rw = sw.rw.writeHeader c
    ∧ (logRequest [.setStatus 201, .setStatus 404] ⟨none, ""⟩).2 = 201 := by
  have hw : sw.writeHeader c = ⟨sw.rw.writeHeader c, c, true⟩ := by
    simp [StatusWriter.writeHeader, h]
  refine ⟨?_, by rw [hw], by rw [hw], by decide⟩
  rw [hw, run_setStatus_of_headerSent _ rfl]

/-- Witness for C4: a fresh wrapper, `WriteHeader(201)` then
`WriteHeader(404)`. -/
theorem c4_first_write_wins_witness :
    (((StatusWriter.mk ⟨none, ""⟩ 200 false).writeHeader 201).run
        ([404].map WriterAction.setStatus)).status = 201
    ∧ ((StatusWriter.mk ⟨none, ""⟩ 200 false).writeHeader 201).status = 201
    ∧ ((StatusWriter.mk ⟨none, ""⟩ 200 false).writeHeader 201).rw
        = RW.writeHeader ⟨none, ""⟩ 201
    ∧ (logRequest [.setStatus 201, .setStatus 404] ⟨none, ""⟩).2 = 201 :=
  c4_first_write_wins ⟨⟨none, ""⟩, 200, false⟩ rfl 201 [404]

/-! ## C8: implicit 200 on first body write -/

/-- A run of writer calls containing no `WriteHeader` leaves the wrapper's
recorded status and header flag untouched (the wrapper does not intercept
`Write`). -/
theorem run_no_setStatus (calls : List WriterAction) (sw : StatusWriter)
    (hs : calls.all (fun a => !a.isSetStatus) = true) :
    (sw.run calls).status = sw.status ∧ (sw.run calls).headerSent = sw.headerSent := by
  induction calls generalizing sw with
  | nil => exact ⟨rfl, rfl⟩
  | cons a rest ih =>
    cases a with
    | setStatus c => simp [WriterAction.isSetStatus] at hs
    | writeBody s =>
      simp only [List.all_cons, Bool.and_eq_true] at hs
      exact ih (sw.write s) hs.2

/-- A committed status on the underlying writer survives any further
writer calls. -/
theorem run_preserves_committed (calls : List WriterAction) (sw : StatusWriter) (x : Nat)
    (h : sw.rw.committed = some x) : (sw.run calls).rw.committed = some x := by
  induction calls generalizing sw with
  | nil => exact h
  | cons a rest ih =>
    cases a with
    | setStatus c =>
      refine ih (sw.writeHeader c) ?_
      by_cases hh : sw.headerSent <;>
        simp [StatusWriter.writeHeader, hh, RW.writeHeader, h]
    | writeBody s =>
      refine ih (sw.write s) ?_
      simp [StatusWriter.write, RW.write, h]

/-- A run with at least one body write and no `WriteHeader`, starting from
an uncommitted underlying writer, commits exactly 200. -/
theorem run_commits_200 (calls : List WriterAction) (sw : StatusWriter)
    (hn : sw.rw.committed = none)
    (hb : calls.any WriterAction.isWriteBody = true)
    (hs : calls.all (fun a => !a.isSetStatus) = true) :
    (sw.run calls).rw.committed = some 200 := by
  induction calls generalizing sw with
  | nil => simp at hb
  | cons a rest ih =>
    cases a with
    | setStatus c => simp [WriterAction.isSetStatus] at hs
    | writeBody s =>
      have : (sw.write s).rw.committed = some 200 := by
        simp [StatusWriter.write, RW.write, hn]
      exact run_preserves_committed rest (sw.write s) 200 this

/-- C8 amended: the wrapper does not intercept `Write`; when the handler
only writes body bytes (no `WriteHeader` call at all) against an
uncommitted writer, the underlying writer commits 200 on the first write
and the logger's preset 200 equals the committed status. -/
theorem c8_implicit_200_when_no_explicit_status (calls : List WriterAction) (w : RW)
    (hw : w.committed = none)
    (hb : calls.any WriterAction.isWriteBody = true)
    (hs : calls.all (fun a => !a.isSetStatus) = true) :
    (logRequest calls w).1.committed = some 200 ∧ (logRequest calls w).2 = 200 := by
  constructor
  · exact run_commits_200 calls ⟨w, 200, false⟩ hw hb hs
  · exact (run_no_setStatus calls ⟨w, 200, false⟩ hs).1

/-- Witness for the amended C8: a handler that writes one chunk of body
and never sets a status. -/
theorem c8_implicit_200_witness :
    (logRequest [.writeBody "hello"] ⟨none, ""⟩).1.committed = some 200
    ∧ (logRequest [.writeBody "hello"] ⟨none, ""⟩).2 = 200 :=
  c8_implicit_200_when_no_explicit_status [.writeBody "hello"] ⟨none, ""⟩ rfl rfl rfl

/-- Counterexample to C8 as stated: a handler that writes a body byte
first (no status committed yet) and then calls `WriteHeader(404)`.  The
underlying writer committed 200 at the first write, but the wrapper —
having no `Write` method of its own — never marked the header sent, so
the later `WriteHeader(404)` updates the recorded status and the logger
observes 404 while the client received 200. -/
theorem c8_counterexample_write_then_status :
    ((logRequest [.writeBody "x", .setStatus 404] ⟨none, ""⟩).1.committed = some 200)
    ∧ ((logRequest [.writeBody "x", .setStatus 404] ⟨none, ""⟩).2 = 404)
    ∧ ¬((logRequest [.writeBody "x", .setStatus 404] ⟨none, ""⟩).1.committed
        = some (logRequest [.writeBody "x", .setStatus 404] ⟨none, ""⟩).2) := by
  decide

/-! ## C5: panic recovery -/

/-- C5 at the failing input: a handler that panics with value `"boom"` on
`GET /x`.  The wrapped handler returns normally, commits 500 with the
status text as body, and emits one log record with a stack trace — but
the record's `"panic"` field holds `fmt.Sprint` of the request, not the
recovered fault value `"boom"`, contradicting the claim (and the
function's own doc comment, which says it logs the error). -/
theorem c5_recovered_value_not_logged :
    ((RecoverFromPanic (fun _ w => .panicked w "boom") ⟨"GET", "/x"⟩
        ⟨none, ""⟩).1.committed = some 500)
    ∧ ((RecoverFromPanic (fun _ w => .panicked w "boom") ⟨"GET", "/x"⟩
        ⟨none, ""⟩).1.body = "Internal Server Error\n")
    ∧ ((RecoverFromPanic (fun _ w => .panicked w "boom") ⟨"GET", "/x"⟩
        ⟨none, ""⟩).2.map LogEntry.message = ["panic occurred"])
    ∧ ((RecoverFromPanic (fun _ w => .panicked w "boom") ⟨"GET", "/x"⟩
        ⟨none, ""⟩).2.map LogEntry.val2 = [debugStack])
    ∧ ((RecoverFromPanic (fun _ w => .panicked w "boom") ⟨"GET", "/x"⟩
        ⟨none, ""⟩).2.map LogEntry.val1 = [fmtSprintRequest ⟨"GET", "/x"⟩])
    ∧ fmtSprintRequest ⟨"GET", "/x"⟩ ≠ "boom" := by
  decide

/-! ## C10: the padded middlewareNames slice -/

/-- Folding an append of singletons over a list prepends the initial
buffer to the mapped list. -/
theorem foldl_append_singleton {α β : Type} (f : α → β) (init : List β) (l : List α) :
    l.foldl (fun acc x => acc ++ [f x]) init = init ++ l.map f := by
  induction l generalizing init with
  | nil => simp
  | cons x xs ih => simp [List.foldl, ih]

/-- `middlewareNames` keeps the pre-allocated empty strings in front of
the real trimmed names. -/
theorem middlewareNames_eq (mws : List String) :
    middlewareNames mws = List.replicate mws.length "" ++ mws.map trimRepoName := by
  simp [middlewareNames, foldl_append_singleton]

/-- C10: for a non-empty middleware list of length n, `middlewareNames`
returns 2n entries, the first n of them empty strings and the last n the
real trimmed names, and `route.String` renders that padded slice. -/
theorem c10_middleware_names_blank_padded (mws : List String) (hname : String)
    (h : 0 < mws.length) :
    (middlewareNames mws).length = 2 * mws.length
    ∧ (middlewareNames mws).take mws.length = List.replicate mws.length ""
    ∧ (middlewareNames mws).drop mws.length = mws.map trimRepoName
    ∧ routeString "GET" "/x" hname mws
        = "GET" ++ " " ++ "/x" ++ " " ++ trimRepoName hname ++ " "
            ++ goFmtStrSlice (List.replicate mws.length "" ++ mws.map trimRepoName) := by
  refine ⟨?_, ?_, ?_, ?_⟩
  · simp [middlewareNames_eq]; omega
  · rw [middlewareNames_eq]
    exact List.take_left' (by simp)
  · rw [middlewareNames_eq]
    exact List.drop_left' (by simp)
  · simp only [routeString, middlewareNames_eq]

/-- Witness for C10 on a one-element middleware list. -/
theorem c10_middleware_names_blank_padded_witness :
    (middlewareNames ["github.com/ferdiebergado/goexpress.LogRequest"]).length = 2 * 1
    ∧ (middlewareNames ["github.com/ferdiebergado/goexpress.LogRequest"]).take 1
        = List.replicate 1 ""
    ∧ (middlewareNames ["github.com/ferdiebergado/goexpress.LogRequest"]).drop 1
        = ["github.com/ferdiebergado/goexpress.LogRequest"].map trimRepoName
    ∧ routeString "GET" "/x" "github.com/o/r.H" ["github.com/ferdiebergado/goexpress.LogRequest"]
        = "GET" ++ " " ++ "/x" ++ " " ++ trimRepoName "github.com/o/r.H" ++ " "
            ++ goFmtStrSlice (List.replicate 1 ""
              ++ ["github.com/ferdiebergado/goexpress.LogRequest"].map trimRepoName) := by
  have := c10_middleware_names_blank_padded
    ["github.com/ferdiebergado/goexpress.LogRequest"] "github.com/o/r.H" (by decide)
  simpa using this

/-! ## C6: registered paths are normalized

The invariant `GoodBuf` holds of the `path.Clean` output buffer throughout
the rooted run: it starts at `['/']` and every step preserves it. -/

/-- A list of non-slash characters has no double slash. -/
theorem noDouble_of_all (l : List Char) (h : ∀ ch ∈ l, ch ≠ '/') : NoDouble l := by
  induction l with
  | nil => exact List.chain'_nil
  | cons a t ih =>
    cases t with
    | nil => exact List.chain'_singleton a
    | cons b t =>
      refine List.chain'_cons.mpr ⟨?_, ih fun ch hm => h ch (List.mem_cons_of_mem a hm)⟩
      intro hab
      exact h a (by simp) hab.1

/-- The `..` backtracking cursor with low-water mark 1 stays in `[1, w]`
and stops either at the mark or just below a slash. -/
theorem backtrackW_spec (out : List Char) : ∀ w : Nat, 1 ≤ w →
    1 ≤ backtrackW out 1 w ∧ backtrackW out 1 w ≤ w ∧
      (backtrackW out 1 w = 1 ∨ out.getD (backtrackW out 1 w) ' ' = '/') := by
  intro w
  induction w with
  | zero => intro h; exact absurd h (by omega)
  | succ w ih =>
    intro _
    rw [backtrackW]
    by_cases hg : 1 < w + 1 ∧ out.getD (w + 1) ' ' ≠ '/'
    · rw [if_pos hg]
      have hw : 1 ≤ w := by omega
      obtain ⟨h1, h2, h3⟩ := ih hw
      exact ⟨h1, Nat.le_succ_of_le h2, h3⟩
    · rw [if_neg hg]
      push_neg at hg
      refine ⟨by omega, Nat.le_refl _, ?_⟩
      rcases Nat.lt_or_ge 1 (w + 1) with h1 | h1
      · exact Or.inr (hg h1)
      · exact Or.inl (by omega)

/-- Backtracking over the previous path element keeps the buffer good. -/
theorem goodBuf_backtrack (out : List Char) (hg : GoodBuf out) (hlen : 1 < out.length) :
    GoodBuf (backtrack out 1) := by
  obtain ⟨hhead, hnd, _⟩ := hg
  unfold backtrack
  obtain ⟨hr1, hrle, hror⟩ := backtrackW_spec out (out.length - 1) (by omega)
  refine ⟨?_, List.Chain'.take hnd _, ?_⟩
  · rw [List.head?_take, if_neg (by omega)]
    exact hhead
  · rcases hror with hone | hslash
    · left
      rw [hone]
      cases out with
      | nil => simp at hhead
      | cons c t =>
        simp only [List.head?_cons, Option.some.injEq] at hhead
        rw [hhead]
        rfl
    · right
      have hrlt : backtrackW out 1 (out.length - 1) < out.length := by omega
      rw [List.getLast?_take, if_neg (by omega)]
      have hgetr : out[backtrackW out 1 (out.length - 1)] = '/' := by
        rw [List.getD_eq_getElem?_getD, List.getElem?_eq_getElem hrlt] at hslash
        simpa using hslash
      have hprev : backtrackW out 1 (out.length - 1) - 1 + 1
          = backtrackW out 1 (out.length - 1) := by omega
      have hplt : backtrackW out 1 (out.length - 1) - 1 < out.length := by omega
      have hpair := List.chain'_iff_get.mp hnd (backtrackW out 1 (out.length - 1) - 1)
        (by omega)
      simp only [List.get_eq_getElem, hprev] at hpair
      have hne : out[backtrackW out 1 (out.length - 1) - 1] ≠ '/' :=
        fun hq => hpair ⟨hq, hgetr⟩
      rw [List.getElem?_eq_getElem hplt]
      simpa using hne

/-- Copying a non-empty slash-free path element onto the root keeps the
buffer good. -/
theorem goodBuf_root_extend (seg : List Char) (hne : seg ≠ [])
    (hseg : ∀ ch ∈ seg, ch ≠ '/') : GoodBuf (['/'] ++ seg) := by
  refine ⟨rfl, ?_, ?_⟩
  · refine List.chain'_cons'.mpr ⟨?_, noDouble_of_all seg hseg⟩
    intro y hy hab
    exact hseg y (List.mem_of_mem_head? hy) hab.2
  · right
    rw [List.getLast?_append]
    cases hlast : seg.getLast? with
    | none => exact absurd (List.getLast?_eq_none_iff.mp hlast) hne
    | some x =>
      have hx : x ≠ '/' := hseg x (List.mem_of_mem_getLast? (by rw [hlast]; rfl))
      simpa using hx

/-- Appending a slash and a non-empty slash-free path element to a good
buffer that does not end in a slash keeps the buffer good. -/
theorem goodBuf_slash_extend (out seg : List Char) (hhead : out.head? = some '/')
    (hnd : NoDouble out) (hlast : out.getLast? ≠ some '/')
    (hne : seg ≠ []) (hseg : ∀ ch ∈ seg, ch ≠ '/') :
    GoodBuf (out ++ '/' :: seg) := by
  have hcons : NoDouble ('/' :: seg) := (goodBuf_root_extend seg hne hseg).2.1
  refine ⟨?_, ?_, ?_⟩
  · rw [List.head?_append, hhead]
    rfl
  · refine List.chain'_append.mpr ⟨hnd, hcons, ?_⟩
    intro x hx y hy hab
    apply hlast
    rw [Option.mem_def] at hx
    rw [hx, hab.1]
  · right
    rw [List.getLast?_append]
    cases hlast2 : ('/' :: seg).getLast? with
    | none => simp at hlast2
    | some x =>
      have hx : x ∈ '/' :: seg := List.mem_of_mem_getLast? (by rw [hlast2]; rfl)
      have hxs : x ∈ seg := by
        rcases List.mem_cons.mp hx with h1 | h1
        · exfalso
          rw [h1] at hlast2
          have := (goodBuf_root_extend seg hne hseg).2.2
          rcases this with h2 | h2
          · have : seg = [] := by
              have := congrArg List.tail h2
              simpa using this
            exact hne this
          · exact h2 (by simpa using hlast2)
        · exact h1
      have hxne : x ≠ '/' := hseg x hxs
      simpa using hxne

/-- The path element copied in the default branch of `path.Clean` is
non-empty and slash-free. -/
theorem takeWhile_seg_facts (c : Char) (rest : List Char) (hc : ¬c = '/') :
    (c :: rest).takeWhile (fun ch => ch != '/') ≠ []
    ∧ ∀ x ∈ (c :: rest).takeWhile (fun ch => ch != '/'), x ≠ '/' := by
  constructor
  · rw [List.takeWhile_cons, if_pos (by simpa using hc)]
    simp
  · intro x hx
    simpa using List.mem_takeWhile_imp hx

/-- Every step of the rooted `path.Clean` loop preserves the buffer
invariant. -/
theorem goodBuf_cleanCore (fuel : Nat) : ∀ (input out : List Char), GoodBuf out →
    GoodBuf (cleanCore true fuel 1 out input) := by
  induction fuel with
  | zero =>
    intro input out hg
    cases input <;> simpa [cleanCore] using hg
  | succ fuel ih =>
    intro input out hg
    cases input with
    | nil => simpa [cleanCore] using hg
    | cons c rest =>
      simp only [cleanCore]
      split_ifs with h1 h2 h3 h4 h5 h6 h7
      · exact ih rest out hg
      · exact ih rest out hg
      · exact ih rest.tail (backtrack out 1) (goodBuf_backtrack out hg h4)
      · exact h5.elim
      · exact h5.elim
      · exact ih rest.tail out hg
      · -- default branch, slash appended before the copied element
        obtain ⟨hne, hseg⟩ := takeWhile_seg_facts c rest h1
        rw [List.append_assoc, List.singleton_append]
        refine ih _ _ ?_
        have hl1 : out.length ≠ 1 := by
          rcases h7 with ⟨_, hl⟩ | ⟨hf, _⟩
          · exact hl
          · exact hf.elim
        have hlast : out.getLast? ≠ some '/' := by
          rcases hg.2.2 with hroot | hl
          · exact absurd (congrArg List.length hroot) (by simpa using hl1)
          · exact hl
        exact goodBuf_slash_extend out _ hg.1 hg.2.1 hlast hne hseg
      · -- default branch with the buffer exactly at the root
        obtain ⟨hne, hseg⟩ := takeWhile_seg_facts c rest h1
        have hl1 : out.length = 1 := by
          rcases eq_or_ne out.length 1 with he | hn
          · exact he
          · exact absurd (Or.inl ⟨trivial, hn⟩) h7
        have hout : out = ['/'] := by
          cases out with
          | nil => simp at hl1
          | cons a t =>
            have ht : t = [] := by
              have h0 : t.length = 0 := by simpa using hl1
              exact List.length_eq_zero.mp h0
            have ha : a = '/' := by
              have hh := hg.1
              simpa [ht] using hh
            rw [ha, ht]
        rw [hout]
        exact ih _ _ (goodBuf_root_extend _ hne hseg)

/-- Every output of `normalizePath` is an absolute path with no repeated
slashes and no trailing slash unless it is the root. -/
theorem normalizePath_normalized (s : String) : NormalizedAbs (normalizePath s) := by
  by_cases hs : s = ""
  · subst hs
    exact ⟨rfl, List.chain'_singleton _, fun h => absurd rfl h⟩
  · have hdata : ("/" ++ s).data = '/' :: s.data := by
      rw [String.data_append]
      rfl
    have hres : GoodBuf (cleanCore true s.data.length 1 ['/'] s.data) :=
      goodBuf_cleanCore _ _ _ ⟨rfl, List.chain'_singleton _, Or.inl rfl⟩
    have hresne : cleanCore true s.data.length 1 ['/'] s.data ≠ [] := by
      intro h0
      rw [h0] at hres
      exact absurd hres.1 (by simp)
    have hclean : pathClean ("/" ++ s)
        = String.mk (cleanCore true s.data.length 1 ['/'] s.data) := by
      unfold pathClean
      split
      · next heq => rw [hdata] at heq; exact absurd heq (by simp)
      · next c cs heq =>
        rw [hdata] at heq
        injection heq with hc hcs
        subst hc
        subst hcs
        simp only [beq_self_eq_true, if_true]
        rw [if_neg (by simpa using hresne)]
    unfold normalizePath
    rw [if_neg hs, hclean]
    have hdot : String.mk (cleanCore true s.data.length 1 ['/'] s.data) ≠ "." := by
      intro h
      have hd : cleanCore true s.data.length 1 ['/'] s.data = ['.'] := congrArg String.data h
      rw [hd] at hres
      exact absurd hres.1 (by decide)
    rw [if_neg hdot]
    refine ⟨hres.1, hres.2.1, ?_⟩
    intro hne hlast
    rcases hres.2.2 with hroot | hl
    · apply hne
      rw [show String.mk (cleanCore true s.data.length 1 ['/'] s.data)
            = String.mk ['/'] from congrArg String.mk hroot]
    · exact hl hlast

/-- C6: every registration records the route under the full path
`normalizePath(prefix ++ path)` and registers the pattern
`"METHOD " ++ fullPath` with the mux; every `normalizePath` output is
absolute with repeated slashes collapsed and no trailing slash unless it
is the root, and the empty string normalizes to the root. -/
theorem c6_registered_path_normalized (method p s : String) (mux : Mux) (r : Router)
    (H : Handler) (mws : List Middleware) :
    ((Router.handle mux r method p H mws).2.routes.getLast?
        = some ⟨method, normalizePath (r.basePath ++ p), H, mws⟩)
    ∧ ((Router.handle mux r method p H mws).1
        = mux ++ [(method ++ " " ++ normalizePath (r.basePath ++ p),
            wrap (wrap H mws) r.middlewares)])
    ∧ NormalizedAbs (normalizePath s)
    ∧ normalizePath "" = "/" := by
  refine ⟨?_, rfl, normalizePath_normalized s, rfl⟩
  simp [Router.handle]

/-- Witness for C6 on a messy concrete path. -/
theorem c6_registered_path_normalized_witness :
    ((Router.handle [] Router.new "GET" "//a//b/" (logEvent "h") []).2.routes.getLast?
        = some ⟨"GET", normalizePath (Router.new.basePath ++ "//a//b/"), logEvent "h", []⟩)
    ∧ ((Router.handle [] Router.new "GET" "//a//b/" (logEvent "h") []).1
        = [] ++ [("GET" ++ " " ++ normalizePath (Router.new.basePath ++ "//a//b/"),
            wrap (wrap (logEvent "h") []) Router.new.middlewares)])
    ∧ NormalizedAbs (normalizePath "x//y/")
    ∧ normalizePath "" = "/" :=
  c6_registered_path_normalized "GET" "//a//b/" "x//y/" [] Router.new (logEvent "h") []

end GoExpress
